import Mathlib

/-!
# Verification of the lpqtree spatial-index wrapper

A shallow embedding of `src/lpqtree/lpqtree.py` (the scikit-learn style
wrapper around the native `nanoflann_ext` module) together with models of
the native search engine.  The native C++ sources are not part of this
repository snapshot, so the engine-level definitions are modelled from the
specification; every such definition carries a doc comment starting with
`Modelled from the spec:`.  Numeric data is embedded as rational numbers;
metric distances that involve square roots live in `ℝ`.
-/

namespace Lpqtree

/-! ## Data model of the Python wrapper (`src/lpqtree/lpqtree.py`) -/

/-- Numpy dtype abstraction: `SUPPORTED_TYPES = [np.float32, np.float64]`. -/
inductive Dtype
  | f32
  | f64
  | other
deriving DecidableEq

/-- A numpy array: dtype, shape, and row-major flat data. -/
structure NDArr where
  dtype : Dtype
  shape : List ℕ
  data : List ℚ
deriving DecidableEq

/-- `SUPPORTED_TYPES` (lpqtree.py line 12). -/
def SUPPORTED_TYPES : List Dtype := [Dtype.f32, Dtype.f64]

/-- `SUPPORTED_DIM` (lpqtree.py line 13): allowed numbers of array axes. -/
def SUPPORTED_DIM : List ℕ := [2, 3]

/-- `SUPPORTED_METRIC` (lpqtree.py line 14). -/
def SUPPORTED_METRIC : List String := ["l1", "l2", "l11", "l22", "l21"]

/-- Metrics accepted by `fit_and_radius_search` together with `nb_mpts`
(lpqtree.py line 192). -/
def ALLOWED_MPTS_METRIC : List String := ["l1", "l2", "l11", "l21"]

/-- Python exceptions raised by the wrapper. -/
inductive PyError
  | valueError (msg : String)
  | assertionError
  | notFittedError
deriving DecidableEq

/-- The native `nanoflann_ext.KDTree32/KDTree64` object: constructor
parameters plus, once `fit` has run, the flattened 2-D data, the index
path and the `last_dim` argument passed to the native `fit`. -/
structure NativeIndex where
  nNeighbors : ℕ
  leafSize : ℕ
  metric : String
  radius : ℚ
  bits64 : Bool
  fitted : Option (NDArr × String × ℕ)
deriving DecidableEq

/-- The Python-level `KDTree` object state: constructor parameters,
the optional native index, `_fit_X`, `_nb_vts_in_tree`, `_nb_vts_in_search`. -/
structure KDTreeState where
  nNeighbors : ℕ
  radius : ℚ
  leafSize : ℕ
  metric : String
  index : Option NativeIndex
  fitX : Option NDArr
  nbVtsInTree : Option ℕ
  nbVtsInSearch : Option ℕ
deriving DecidableEq

/-- Product of a shape list (number of entries of an array of that shape). -/
def shapeProd (l : List ℕ) : ℕ := l.foldl (· * ·) 1

/-- `X.reshape((X.shape[0], -1))`: collapse all trailing axes. -/
def reshape2d (X : NDArr) : NDArr :=
  ⟨X.dtype, [X.shape.headD 0, shapeProd X.shape.tail], X.data⟩

/-- Python's `str.lower()` on the metric names (ASCII lowercasing). -/
def pyLower (s : String) : String := ⟨s.data.map Char.toLower⟩

/-- `KDTree.__init__` (lpqtree.py lines 39-52): lowercase the metric,
reject unknown metrics with `ValueError`, store the parameters, and leave
`index` and `_fit_X` unset. -/
def kdtreeInit (nNeighbors : ℕ) (radius : ℚ) (leafSize : ℕ) (metric : String) :
    Except PyError KDTreeState :=
  let m := pyLower metric
  if m ∈ SUPPORTED_METRIC then
    Except.ok ⟨nNeighbors, radius, leafSize, m, none, none, none, none⟩
  else
    Except.error (PyError.valueError "Supported metrics")

/-- `_check_arg` (lpqtree.py lines 31-35): dtype and axis-count validation. -/
def checkArg (X : NDArr) : Except PyError Unit :=
  if X.dtype ∉ SUPPORTED_TYPES then
    Except.error (PyError.valueError "Supported types")
  else if X.shape.length ∉ SUPPORTED_DIM then
    Except.error (PyError.valueError "Incorrect shape")
  else Except.ok ()

/-- `KDTree.fit` (lpqtree.py lines 54-87): validate the input, create the
native index object, compute `last_dim` (grouped metrics require a 3-axis
array), flatten the data into `_fit_X` and fit the native index. -/
def kdtreeFit (st : KDTreeState) (X : NDArr) (indexPath : Option String) :
    Except PyError KDTreeState := do
  match checkArg X with
  | Except.error e => throw e
  | Except.ok _ =>
    let idx0 : NativeIndex :=
      { nNeighbors := st.nNeighbors, leafSize := st.leafSize, metric := st.metric,
        radius := st.radius, bits64 := X.dtype = Dtype.f64, fitted := none }
    let lastDim ←
      if st.metric = "l2" ∨ st.metric = "l1" then pure 1
      else if X.shape.length = 3 then pure (X.shape.getD 2 0)
      else throw (PyError.valueError (st.metric ++ " metric should be used with 3dim array"))
    let fitX := reshape2d X
    let idx : NativeIndex := { idx0 with fitted := some (fitX, indexPath.getD "", lastDim) }
    pure { st with index := some idx, fitX := some fitX,
                   nbVtsInTree := some (fitX.shape.headD 0) }

/-- `KDTree.get_data` (lpqtree.py lines 89-100), ignoring the copy flag. -/
def getData (st : KDTreeState) : Except PyError NDArr :=
  match st.fitX with
  | some d => Except.ok d
  | none => Except.error PyError.notFittedError

/-- Arguments handed to the native single-level radius search. -/
structure RNCall where
  queries : NDArr
  radius : ℚ
  nJobs : ℕ
deriving DecidableEq

/-- `KDTree.radius_neighbors` (lpqtree.py lines 106-135): validate the
query array, flatten 3-axis queries, default the radius, dispatch to the
native search and record `_nb_vts_in_search`. -/
def radius_neighbors (st : KDTreeState) (X : NDArr) (radius : Option ℚ) (nJobs : ℕ) :
    Except PyError (KDTreeState × RNCall) := do
  match checkArg X with
  | Except.error e => throw e
  | Except.ok _ =>
    match st.index with
    | none => throw PyError.notFittedError
    | some _ =>
      let X2 := if X.shape.length = 3 then reshape2d X else X
      let r := radius.getD st.radius
      pure ({ st with nbVtsInSearch := some (X2.shape.headD 0) }, ⟨X2, r, nJobs⟩)

/-- Arguments handed to the native two-level (mean-point) radius search. -/
structure TwoLevelCall where
  xMpts : NDArr
  dataFull : NDArr
  xFull : NDArr
  mptsRadius : ℚ
  radius : ℚ
  nJobs : ℕ
deriving DecidableEq

/-- `KDTree.radius_neighbors_full` (lpqtree.py lines 163-186): flatten the
three arrays, run the shape assertions, derive the coarse mean-point
radius `radius * nb_mpts / nb_dim` and dispatch to the native two-level
search. -/
def radius_neighbors_full (st : KDTreeState) (Xmpts DataFull Xfull : NDArr)
    (radius : ℚ) (nJobs : ℕ) : Except PyError (KDTreeState × TwoLevelCall) := do
  let Xm := if Xmpts.shape.length = 3 then reshape2d Xmpts else Xmpts
  let Df := if DataFull.shape.length = 3 then reshape2d DataFull else DataFull
  let Xf := if Xfull.shape.length = 3 then reshape2d Xfull else Xfull
  let nbMpts := Xm.shape.getD 1 0
  let nbDim := Xf.shape.getD 1 0
  if ¬ (Xm.shape.getD 1 0 ≤ Xf.shape.getD 1 0) then throw PyError.assertionError else
  if ¬ (Xf.shape.getD 1 0 = Df.shape.getD 1 0) then throw PyError.assertionError else
  if ¬ (Xm.shape.headD 0 = Xf.shape.headD 0) then throw PyError.assertionError else do
    let dat ← getData st
    if ¬ (dat.shape.headD 0 = Df.shape.headD 0) then throw PyError.assertionError else
    if ¬ (nbDim % nbMpts = 0) then throw PyError.assertionError else
      pure (st, ⟨Xm, Df, Xf, radius * (nbMpts : ℚ) / (nbDim : ℚ), radius, nJobs⟩)

/-- The row-major data of
`np.mean(X.reshape((N, m, B, -1)), axis=2)` (lpqtree.py lines 199-200):
entry `(n, i, k)` is the average over `j < B` of the input entry at flat
position `((n*m + i)*B + j)*W + k`. -/
def meanArrData (N m B W : ℕ) (data : List ℚ) : List ℚ :=
  (List.range (N * m * W)).map fun t =>
    ((List.range B).map fun j =>
      data.getD (((t / (m * W) * m + t % (m * W) / W) * B + j) * W + t % W) 0).sum / (B : ℚ)

/-- `np.mean(X.reshape((X.shape[0], nb_mpts, nb_averaged, -1)), axis=2)`
applied to an array (lpqtree.py lines 198-200): the mean-point array of
shape `(N, nb_mpts, W)` where `nb_averaged = X.shape[1] // nb_mpts` and
`W` is what numpy infers for the trailing `-1`. -/
def meanArr (X : NDArr) (nbMpts : ℕ) : NDArr :=
  let N := X.shape.headD 0
  let B := X.shape.getD 1 0 / nbMpts
  let W := shapeProd X.shape.tail / (nbMpts * B)
  ⟨X.dtype, [N, nbMpts, W], meanArrData N nbMpts B W X.data⟩

/-- The native call performed by `fit_and_radius_search`. -/
inductive SearchCall
  | oneLevel (c : RNCall)
  | twoLevel (c : TwoLevelCall)
deriving DecidableEq

/-- `KDTree.fit_and_radius_search` (lpqtree.py lines 188-208): assert the
per-point shapes agree; with a truthy `nb_mpts`, check the metric and the
divisibility of `tree_vts.shape[1]`, build both mean-point arrays, fit on
the tree mean points and run the two-level search; otherwise fit on the
full points and run the plain radius search. -/
def fit_and_radius_search (st : KDTreeState) (treeVts searchVts : NDArr)
    (radius : ℚ) (nJobs : ℕ) (nbMpts : Option ℕ) :
    Except PyError (KDTreeState × SearchCall) := do
  if ¬ (treeVts.shape.tail = searchVts.shape.tail) then throw PyError.assertionError else
  if (nbMpts.getD 0) ≠ 0 then
    let k := nbMpts.getD 0
    if st.metric ∉ ALLOWED_MPTS_METRIC then
      throw (PyError.valueError "Only  l1, l2, l11, or l21  can be used with nb_mpts")
    else if treeVts.shape.getD 1 0 % k ≠ 0 then
      throw (PyError.valueError "nb_mpts must be a divisor of tree_vts.shape[2]")
    else do
      let treeMpts := meanArr treeVts k
      let searchMpts := meanArr searchVts k
      let st1 ← kdtreeFit st treeMpts none
      let (st2, call) ← radius_neighbors_full st1 searchMpts treeVts searchVts radius nJobs
      pure (st2, SearchCall.twoLevel call)
  else do
    let st1 ← kdtreeFit st treeVts none
    let (st2, call) ← radius_neighbors st1 searchVts (some radius) nJobs
    pure (st2, SearchCall.oneLevel call)

/-- `pickler` (lpqtree.py lines 17-19): the pickle payload is the four
constructor parameters plus the raw stored `_fit_X` — never the native
index. -/
def pickler (st : KDTreeState) : ℕ × ℚ × ℕ × String × Option NDArr :=
  (st.nNeighbors, st.radius, st.leafSize, st.metric, st.fitX)

/-- `unpickler` (lpqtree.py lines 22-28): recreate the `KDTree` and, when
data was stored, replay `fit` on it. -/
def unpickler (nNeighbors : ℕ) (radius : ℚ) (leafSize : ℕ) (metric : String)
    (X : Option NDArr) : Except PyError KDTreeState := do
  let tree ← kdtreeInit nNeighbors radius leafSize metric
  match X with
  | some x => kdtreeFit tree x none
  | none => pure tree

/-- Python truthiness of an `int | None` attribute. -/
def truthyN : Option ℕ → Bool
  | none => false
  | some n => n ≠ 0

/-- The `shape` argument `get_csr_matrix`/`get_coo_matrix` pass to the
scipy constructors (lpqtree.py lines 147-157):
`(self._nb_vts_in_tree, self._nb_vts_in_search)` when both are truthy. -/
def getCsrShape (st : KDTreeState) : Option (ℕ × ℕ) :=
  if truthyN st.nbVtsInTree && truthyN st.nbVtsInSearch then
    some (st.nbVtsInTree.getD 0, st.nbVtsInSearch.getD 0)
  else none

/-- Modelled from the spec: the native result buffer `getResultIndicesPtr`
is absent from this snapshot; per the spec it is a CSR row-pointer array of
length `N_queries + 1` whose entry `k` counts the neighbor records of the
query rows before `k` (records are `(query_row, point_col, distance)`). -/
def rowPtrOf (Q : ℕ) (records : List (ℕ × ℕ × ℚ)) : List ℕ :=
  (List.range (Q + 1)).map fun k => (records.filter fun rcd => rcd.1 < k).length

/-- A scipy CSR constructor accepts `(data, indices, indptr)` with an
explicit `shape` only when the row pointer has `rows + 1` entries. -/
def csrShapeConsistent (shape : ℕ × ℕ) (indptr : List ℕ) : Prop :=
  indptr.length = shape.1 + 1

/-- `unpickler` applied to a `pickler` payload. -/
def unpickleTuple : ℕ × ℚ × ℕ × String × Option NDArr → Except PyError KDTreeState
  | (n, r, l, m, X) => unpickler n r l m X

/-! ## The spatial index and its radius search

The native tree, its topology-only persistence and its search engine live
in the absent `nanoflann_ext` module; the definitions below are modelled
from the spec. -/

/-- A stored point: its flat coordinate list. -/
abbrev Pt := List ℚ

/-- Modelled from the spec: a tree node is either a leaf holding a
contiguous index range `[start, start+len)` into the point set, or an
internal node holding a split dimension, a split value, the bounding box
of its subtree (per-coordinate lower/upper bounds) and two children. -/
inductive KTree
  | leaf (start len : ℕ)
  | node (dim : ℕ) (val : ℚ) (lo hi : List ℚ) (left right : KTree)
deriving DecidableEq

/-- The point indices held below a node, in traversal order. -/
def treeIdxs : KTree → List ℕ
  | KTree.leaf s len => List.range' s len
  | KTree.node _ _ _ _ l r => treeIdxs l ++ treeIdxs r

/-- Modelled from the spec: the single-query radius search.  The traversal
is parameterized by the metric's point-to-point distance `dist` and its
box lower bound `lb`.  A subtree is pruned when the lower bound to its
cached bounding box exceeds the radius; at a leaf the exact distance to
every contained point is computed and a `(point_col, distance)` record is
emitted for each point within the radius, boundary included. -/
def rsearch (pts : List Pt) (dist : Pt → Pt → ℚ) (lb : Pt → List ℚ → List ℚ → ℚ)
    (q : Pt) (rad : ℚ) : KTree → List (ℕ × ℚ)
  | KTree.leaf s len => (List.range' s len).filterMap fun i =>
      let d := dist q (pts.getD i [])
      if d ≤ rad then some (i, d) else none
  | KTree.node _ _ lo hi l r =>
      if lb q lo hi ≤ rad then
        rsearch pts dist lb q rad l ++ rsearch pts dist lb q rad r
      else []

/-- Well-formed tree over a point set: leaf ranges are in bounds and every
internal node's cached bounding box contains all points of its subtree
(box membership is supplied as a boolean test `inB lo hi p`). -/
def TreeWF (pts : List Pt) (inB : List ℚ → List ℚ → Pt → Bool) : KTree → Bool
  | KTree.leaf s len => decide (s + len ≤ pts.length)
  | KTree.node _ _ lo hi l r =>
      ((treeIdxs l ++ treeIdxs r).all fun i => inB lo hi (pts.getD i [])) &&
      TreeWF pts inB l && TreeWF pts inB r

/-- Soundness of a box lower bound: it never overestimates the distance
from a query to any point inside the box. -/
def LbSound (dist : Pt → Pt → ℚ) (lb : Pt → List ℚ → List ℚ → ℚ)
    (inB : List ℚ → List ℚ → Pt → Bool) : Prop :=
  ∀ q lo hi p, inB lo hi p = true → lb q lo hi ≤ dist q p

/-- Membership of a point in the axis-aligned box `[lo, hi]` over the
first `D` coordinates. -/
def inBoxD (D : ℕ) (lo hi p : List ℚ) : Bool :=
  (List.range D).all fun j =>
    decide (lo.getD j 0 ≤ p.getD j 0 ∧ p.getD j 0 ≤ hi.getD j 0)

/-- The l1 distance over the first `D` coordinates. -/
def l1D (D : ℕ) (x y : List ℚ) : ℚ :=
  ∑ j ∈ Finset.range D, |x.getD j 0 - y.getD j 0|

/-- Per-axis clipped distance from a coordinate to an interval. -/
def clip (a lo hi : ℚ) : ℚ := max 0 (max (lo - a) (a - hi))

/-- The l1 box lower bound: sum of per-axis clipped distances. -/
def l1lbD (D : ℕ) (q lo hi : List ℚ) : ℚ :=
  ∑ j ∈ Finset.range D, clip (q.getD j 0) (lo.getD j 0) (hi.getD j 0)

/-- Demo point set: the spec's concrete 2-D scenario. -/
def demoPts : List Pt := [[0, 0], [1, 0], [0, 1], [5, 5]]

/-- A well-formed two-leaf tree over `demoPts`. -/
def demoTree : KTree :=
  KTree.node 0 1 [0, 0] [5, 5] (KTree.leaf 0 2) (KTree.leaf 2 2)

/-! ### Persistence (`save_index` / `fit` with `index_path`) -/

/-- Modelled from the spec: one record of the persisted index file — a
type tag plus, for an internal node, split dimension, split value and
bounding box, or, for a leaf, its start/length index range.  Point
coordinates are never part of a record. -/
inductive NodeRec
  | leafR (start len : ℕ)
  | nodeR (dim : ℕ) (val : ℚ) (lo hi : List ℚ)
deriving DecidableEq

/-- Modelled from the spec: `saveIndex` writes the node records in
pre-order; the point coordinates are not written. -/
def saveTree : KTree → List NodeRec
  | KTree.leaf s len => [NodeRec.leafR s len]
  | KTree.node d v lo hi l r => NodeRec.nodeR d v lo hi :: (saveTree l ++ saveTree r)

/-- Pre-order decoder with explicit fuel (the record count suffices). -/
def loadTreeAux : ℕ → List NodeRec → Option (KTree × List NodeRec)
  | 0, _ => none
  | _ + 1, [] => none
  | _ + 1, NodeRec.leafR s len :: rest => some (KTree.leaf s len, rest)
  | fuel + 1, NodeRec.nodeR d v lo hi :: rest => do
      let (l, rest1) ← loadTreeAux fuel rest
      let (r, rest2) ← loadTreeAux fuel rest1
      some (KTree.node d v lo hi l r, rest2)

/-- Modelled from the spec: `loadIndex` reconstructs the tree from the
record sequence alone; the caller re-supplies the point data separately. -/
def loadTree (file : List NodeRec) : Option KTree :=
  match loadTreeAux file.length file with
  | some (t, []) => some t
  | _ => none

/-! ### Batched multithreaded search -/

/-- Modelled from the spec: the query rows are split into `T` contiguous
chunks, as equal as integer division allows, the remainder going to the
first chunks. -/
def chunkSizes (N T : ℕ) : List ℕ :=
  (List.range T).map fun i => N / T + if i < N % T then 1 else 0

/-- Split a list into consecutive chunks of the given sizes. -/
def splitChunks {α : Type} (l : List α) : List ℕ → List (List α)
  | [] => []
  | n :: ns => l.take n :: splitChunks (l.drop n) ns

/-- Modelled from the spec: the batched radius search runs the per-query
engine over each chunk in a worker with a private buffer, then
concatenates the buffers in chunk order.  `engine` receives the global
query row together with the query and returns that query's neighbor
records. -/
def batchSearch {α β : Type} (engine : ℕ × α → List β) (queries : List α) (T : ℕ) :
    List β :=
  ((splitChunks queries.enum (chunkSizes queries.length T)).map fun chunk =>
    chunk.flatMap engine).flatten

/-- The per-query engine of the batched search: run `rsearch` and tag each
record with the query row, yielding `(query_row, point_col, distance)`. -/
def rowEngine (pts : List Pt) (dist : Pt → Pt → ℚ) (lb : Pt → List ℚ → List ℚ → ℚ)
    (rad : ℚ) (t : KTree) : ℕ × Pt → List (ℕ × ℕ × ℚ) :=
  fun rq => (rsearch pts dist lb rq.2 rad t).map fun cd => (rq.1, cd.1, cd.2)

/-! ### The grouped metric family and the two-level search -/

/-- Coordinate `j` of a point, as a real number. -/
def qget (x : List ℚ) (j : ℕ) : ℝ := ((x.getD j 0 : ℚ) : ℝ)

/-- l1: sum of absolute per-coordinate differences over `D` coordinates. -/
def l1R (D : ℕ) (x y : List ℚ) : ℝ :=
  ∑ j ∈ Finset.range D, |qget x j - qget y j|

/-- l11: sum over `L` groups of the L1 norm of each group's difference. -/
def l11R (L W : ℕ) (x y : List ℚ) : ℝ :=
  ∑ i ∈ Finset.range L, ∑ k ∈ Finset.range W, |qget x (i * W + k) - qget y (i * W + k)|

/-- l2: Euclidean norm of the difference over `D` coordinates (the
reported distance is square-rooted, not squared). -/
noncomputable def l2R (D : ℕ) (x y : List ℚ) : ℝ :=
  Real.sqrt (∑ j ∈ Finset.range D, (qget x j - qget y j) ^ 2)

/-- l21: sum over `L` groups of the Euclidean norm of each group's
difference vector of width `W`. -/
noncomputable def l21R (L W : ℕ) (x y : List ℚ) : ℝ :=
  ∑ i ∈ Finset.range L,
    Real.sqrt (∑ k ∈ Finset.range W, (qget x (i * W + k) - qget y (i * W + k)) ^ 2)

/-- The metric kinds of `SUPPORTED_METRIC`. -/
inductive MKind
  | l1
  | l2
  | l11
  | l22
  | l21
deriving DecidableEq

/-- The distance of each metric kind on points with `L` groups of width
`W` (l1/l2/l22 operate on the flat concatenation of length `L*W`). -/
noncomputable def lpqDist : MKind → ℕ → ℕ → List ℚ → List ℚ → ℝ
  | MKind.l1, L, W => l1R (L * W)
  | MKind.l2, L, W => l2R (L * W)
  | MKind.l11, L, W => l11R L W
  | MKind.l22, L, W => l2R (L * W)
  | MKind.l21, L, W => l21R L W

/-- The mean point of a single point with `m * B` groups of width `W`:
row `n = 0` of `meanArrData` (lpqtree.py lines 199-200). -/
def meanPtW (m B W : ℕ) (p : List ℚ) : List ℚ := meanArrData 1 m B W p

/-- Modelled from the spec: the output pair set of the native two-level
search.  The coarse pass is an exact radius search with the index's metric
over the mean points at the derived radius
`radius * nb_mpts / nb_dim = radius * (m*W) / (m*B*W)`
(lpqtree.py line 181), and the refinement pass keeps a candidate only if
its exact full-resolution distance is within `radius`.  A pair
`(query_row, tree_row)` survives iff it passes both. -/
def twoLevelPairs (kind : MKind) (m B W : ℕ) (treeFull queryFull : List (List ℚ))
    (r : ℚ) : Set (ℕ × ℕ) :=
  { pr | pr.1 < queryFull.length ∧ pr.2 < treeFull.length ∧
    lpqDist kind m W (meanPtW m B W (queryFull.getD pr.1 []))
        (meanPtW m B W (treeFull.getD pr.2 []))
      ≤ ((r * (m * W : ℕ) / ((m * B * W : ℕ) : ℚ) : ℚ) : ℝ) ∧
    lpqDist kind (m * B) W (queryFull.getD pr.1 []) (treeFull.getD pr.2 []) ≤ (r : ℝ) }

/-- The brute-force reference: all pairs whose exact full-resolution
distance is within the radius. -/
def brutePairs (kind : MKind) (L W : ℕ) (treeFull queryFull : List (List ℚ))
    (r : ℚ) : Set (ℕ × ℕ) :=
  { pr | pr.1 < queryFull.length ∧ pr.2 < treeFull.length ∧
    lpqDist kind L W (queryFull.getD pr.1 []) (treeFull.getD pr.2 []) ≤ (r : ℝ) }

/-! ### Concrete states used as evaluation inputs -/

/-- A `KDTree(metric="l22")` fitted on one grouped point. -/
def exSt22 : Except PyError KDTreeState :=
  (kdtreeInit 5 1 10 "l22").bind fun s =>
    kdtreeFit s ⟨Dtype.f64, [1, 2, 1], [1, 2]⟩ none

/-- A `KDTree(metric="l21")` fitted on one grouped point of shape (1,2,1). -/
def stL21Fitted : Except PyError KDTreeState :=
  (kdtreeInit 5 1 10 "l21").bind fun s =>
    kdtreeFit s ⟨Dtype.f64, [1, 2, 1], [3, 4]⟩ none

/-- A `KDTree(metric="l2")` fitted on two 2-D points, then queried with a
single query point: `_nb_vts_in_tree = 2`, `_nb_vts_in_search = 1`. -/
def stCsrDemo : Except PyError KDTreeState :=
  ((kdtreeInit 5 1 10 "l2").bind fun s =>
    kdtreeFit s ⟨Dtype.f64, [2, 2], [0, 0, 5, 5]⟩ none).bind fun s =>
    (radius_neighbors s ⟨Dtype.f64, [1, 2], [0, 0]⟩ (some 1) 1).map Prod.fst

/-! ## Helper lemmas -/

theorem getD_map_range (f : ℕ → ℚ) (n B : ℕ) (h : n < B) :
    ((List.range B).map f).getD n 0 = f n := by
  rw [List.getD_eq_getElem?_getD, List.getElem?_map, List.getElem?_range h]
  rfl

theorem list_range_map_sum (f : ℕ → ℚ) (B : ℕ) :
    ((List.range B).map f).sum = ∑ j ∈ Finset.range B, f j := rfl

theorem filter_row_lt_succ (l : List (ℕ × ℕ × ℚ)) (k : ℕ) :
    (l.filter fun r => r.1 < k + 1).length =
      (l.filter fun r => r.1 < k).length + (l.filter fun r => r.1 = k).length := by
  induction l with
  | nil => simp
  | cons a l ih =>
      simp only [List.filter_cons]
      by_cases h1 : a.1 < k
      · have h2 : a.1 < k + 1 := Nat.lt_succ_of_lt h1
        have h3 : ¬ a.1 = k := Nat.ne_of_lt h1
        simp [h1, h2, h3, ih]
        omega
      · by_cases h4 : a.1 = k
        · have h2 : a.1 < k + 1 := by omega
          simp [h1, h2, h4, ih]
          omega
        · have h2 : ¬ a.1 < k + 1 := by omega
          simp [h1, h2, h4, ih]

/-! ## C10 and C5: constructor and fit validation -/

/-- C10: metric validation happens at `KDTree.__init__` and is
case-insensitive: a string whose ASCII-lowercased form is one of the five
supported metric names yields a state storing the lowercased name and no
index; any other string yields a ValueError. -/
theorem kdtreeInit_metric_validation (n : ℕ) (r : ℚ) (l : ℕ) (metric : String) :
    (pyLower metric ∈ SUPPORTED_METRIC →
      kdtreeInit n r l metric =
        Except.ok ⟨n, r, l, pyLower metric, none, none, none, none⟩) ∧
    (pyLower metric ∉ SUPPORTED_METRIC →
      kdtreeInit n r l metric = Except.error (PyError.valueError "Supported metrics")) := by
  constructor <;> intro h <;> simp [kdtreeInit, h]

/-- C10 witness: `"L2"` is accepted and stored lowercased; `"linf"` is
rejected. -/
theorem kdtreeInit_metric_validation_witness :
    (pyLower "L2" ∈ SUPPORTED_METRIC ∧
      kdtreeInit 5 1 10 "L2" =
        Except.ok ⟨5, 1, 10, pyLower "L2", none, none, none, none⟩) ∧
    (pyLower "linf" ∉ SUPPORTED_METRIC ∧
      kdtreeInit 5 1 10 "linf" = Except.error (PyError.valueError "Supported metrics")) :=
  ⟨⟨by decide, (kdtreeInit_metric_validation 5 1 10 "L2").1 (by decide)⟩,
   ⟨by decide, (kdtreeInit_metric_validation 5 1 10 "linf").2 (by decide)⟩⟩

/-- C5: build validation — an unrecognized metric kind fails at the
constructor with ValueError; a bad dtype or axis count fails in `fit`
before the native index is fitted; a grouped metric with a non-3-axis
array fails in `fit` with ValueError; every failure is an `Except.error`,
so no fitted state is produced. -/
theorem fit_build_validation (st : KDTreeState) (X : NDArr) (p : Option String)
    (n l : ℕ) (r : ℚ) (metric : String) :
    (pyLower metric ∉ SUPPORTED_METRIC →
      kdtreeInit n r l metric = Except.error (PyError.valueError "Supported metrics")) ∧
    (X.dtype ∉ SUPPORTED_TYPES →
      kdtreeFit st X p = Except.error (PyError.valueError "Supported types")) ∧
    (X.dtype ∈ SUPPORTED_TYPES → X.shape.length ∉ SUPPORTED_DIM →
      kdtreeFit st X p = Except.error (PyError.valueError "Incorrect shape")) ∧
    (X.dtype ∈ SUPPORTED_TYPES → X.shape.length ∈ SUPPORTED_DIM →
      ¬ (st.metric = "l2" ∨ st.metric = "l1") → X.shape.length ≠ 3 →
      kdtreeFit st X p = Except.error
        (PyError.valueError (st.metric ++ " metric should be used with 3dim array"))) := by
  refine ⟨fun h => ?_, fun h => ?_, fun h1 h2 => ?_, fun h1 h2 h3 h4 => ?_⟩
  · simp [kdtreeInit, h]
  · simp [kdtreeFit, checkArg, h, throw, throwThe, MonadExceptOf.throw]
  · simp [kdtreeFit, checkArg, h1, h2, throw, throwThe, MonadExceptOf.throw]
  · simp [kdtreeFit, checkArg, h1, h2, h3, h4, Bind.bind, Except.bind]

/-- C5 witness: concrete failing builds for each validation branch. -/
theorem fit_build_validation_witness :
    (kdtreeInit 5 1 10 "linf" = Except.error (PyError.valueError "Supported metrics")) ∧
    (kdtreeFit ⟨5, 1, 10, "l2", none, none, none, none⟩ ⟨Dtype.other, [2, 2], []⟩ none =
      Except.error (PyError.valueError "Supported types")) ∧
    (kdtreeFit ⟨5, 1, 10, "l2", none, none, none, none⟩ ⟨Dtype.f64, [4], []⟩ none =
      Except.error (PyError.valueError "Incorrect shape")) ∧
    (kdtreeFit ⟨5, 1, 10, "l21", none, none, none, none⟩ ⟨Dtype.f64, [2, 2], [0, 0, 1, 1]⟩ none =
      Except.error (PyError.valueError "l21 metric should be used with 3dim array")) :=
  ⟨(fit_build_validation ⟨5, 1, 10, "l2", none, none, none, none⟩
      ⟨Dtype.other, [2, 2], []⟩ none 5 10 1 "linf").1 (by decide),
   (fit_build_validation ⟨5, 1, 10, "l2", none, none, none, none⟩
      ⟨Dtype.other, [2, 2], []⟩ none 5 10 1 "linf").2.1 (by decide),
   (fit_build_validation ⟨5, 1, 10, "l2", none, none, none, none⟩
      ⟨Dtype.f64, [4], []⟩ none 5 10 1 "linf").2.2.1 (by decide) (by decide),
   (fit_build_validation ⟨5, 1, 10, "l21", none, none, none, none⟩
      ⟨Dtype.f64, [2, 2], [0, 0, 1, 1]⟩ none 5 10 1 "linf").2.2.2
      (by decide) (by decide) (by decide) (by decide)⟩

/-! ## C4: two-level entry validation -/

/-- C4 counterexample: the claim quantifies over every invocation of the
two-level search, but `radius_neighbors_full` performs no metric check —
invoked directly on an index fitted with metric l22 (not one of
l1/l2/l11/l21) it dispatches the search successfully instead of failing. -/
theorem radius_neighbors_full_l22_runs :
    (exSt22.map fun s => decide (s.metric ∉ ALLOWED_MPTS_METRIC)) = Except.ok true ∧
    (exSt22.bind fun s => radius_neighbors_full s
        ⟨Dtype.f64, [1, 2], [0, 0]⟩ ⟨Dtype.f64, [1, 4], [0, 1, 2, 3]⟩
        ⟨Dtype.f64, [1, 4], [0, 0, 0, 0]⟩ 1 1).isOk = true :=
  ⟨rfl, rfl⟩

/-- C4 (amended): the `fit_and_radius_search` two-level entry rejects a
metric outside l1/l2/l11/l21 with ValueError and a non-divisible
dimension with ValueError, each before any fit or search; a direct
`radius_neighbors_full` call checks only shapes, rejecting a
non-divisible full dimension with AssertionError before dispatch. -/
theorem twoLevel_entry_validation (st : KDTreeState) (tree search Xm Df Xf dat : NDArr)
    (r : ℚ) (jobs k : ℕ) :
    (tree.shape.tail = search.shape.tail → k ≠ 0 → st.metric ∉ ALLOWED_MPTS_METRIC →
      fit_and_radius_search st tree search r jobs (some k) =
        Except.error
          (PyError.valueError "Only  l1, l2, l11, or l21  can be used with nb_mpts")) ∧
    (tree.shape.tail = search.shape.tail → k ≠ 0 → st.metric ∈ ALLOWED_MPTS_METRIC →
      tree.shape.getD 1 0 % k ≠ 0 →
      fit_and_radius_search st tree search r jobs (some k) =
        Except.error
          (PyError.valueError "nb_mpts must be a divisor of tree_vts.shape[2]")) ∧
    (Xm.shape.length ≠ 3 → Df.shape.length ≠ 3 → Xf.shape.length ≠ 3 →
      Xm.shape.getD 1 0 ≤ Xf.shape.getD 1 0 →
      Xf.shape.getD 1 0 = Df.shape.getD 1 0 →
      Xm.shape.headD 0 = Xf.shape.headD 0 →
      st.fitX = some dat →
      dat.shape.headD 0 = Df.shape.headD 0 →
      Xf.shape.getD 1 0 % Xm.shape.getD 1 0 ≠ 0 →
      radius_neighbors_full st Xm Df Xf r jobs =
        Except.error PyError.assertionError) := by
  refine ⟨fun h1 h2 h3 => ?_, fun h1 h2 h3 h4 => ?_,
    fun h1 h2 h3 h4 h5 h6 h7 h8 h9 => ?_⟩
  · simp [fit_and_radius_search, h1, h2, h3, throw, throwThe, MonadExceptOf.throw]
  · simp only [List.getD_eq_getElem?_getD] at h4
    simp [fit_and_radius_search, h1, h2, h3, h4, throw, throwThe, MonadExceptOf.throw]
  · simp only [List.getD_eq_getElem?_getD] at h4 h5 h9
    simp only [List.headD_eq_head?_getD] at h6 h8
    simp [radius_neighbors_full, getData, h1, h2, h3, h4, h5, h6, h7, h8, h9,
      throw, throwThe, MonadExceptOf.throw, Bind.bind, Except.bind]
    intro h10 h11
    rw [h5] at h9
    exact absurd h11 h9

/-- C4 witness: concrete rejected invocations of each kind. -/
theorem twoLevel_entry_validation_witness :
    (fit_and_radius_search ⟨5, 1, 10, "l22", none, none, none, none⟩
        ⟨Dtype.f64, [1, 4], [0, 0, 0, 0]⟩ ⟨Dtype.f64, [1, 4], [1, 1, 1, 1]⟩ 1 1 (some 2) =
      Except.error
        (PyError.valueError "Only  l1, l2, l11, or l21  can be used with nb_mpts")) ∧
    (fit_and_radius_search ⟨5, 1, 10, "l2", none, none, none, none⟩
        ⟨Dtype.f64, [1, 5], [0, 0, 0, 0, 0]⟩ ⟨Dtype.f64, [1, 5], [1, 1, 1, 1, 1]⟩ 1 1 (some 2) =
      Except.error
        (PyError.valueError "nb_mpts must be a divisor of tree_vts.shape[2]")) ∧
    (radius_neighbors_full
        ⟨5, 1, 10, "l2", none, some ⟨Dtype.f64, [1, 3], []⟩, some 1, none⟩
        ⟨Dtype.f64, [1, 2], []⟩ ⟨Dtype.f64, [1, 3], []⟩ ⟨Dtype.f64, [1, 3], []⟩ 1 1 =
      Except.error PyError.assertionError) :=
  ⟨(twoLevel_entry_validation ⟨5, 1, 10, "l22", none, none, none, none⟩
      ⟨Dtype.f64, [1, 4], [0, 0, 0, 0]⟩ ⟨Dtype.f64, [1, 4], [1, 1, 1, 1]⟩
      ⟨Dtype.f64, [], []⟩ ⟨Dtype.f64, [], []⟩ ⟨Dtype.f64, [], []⟩ ⟨Dtype.f64, [], []⟩
      1 1 2).1 rfl (by decide) (by decide),
   (twoLevel_entry_validation ⟨5, 1, 10, "l2", none, none, none, none⟩
      ⟨Dtype.f64, [1, 5], [0, 0, 0, 0, 0]⟩ ⟨Dtype.f64, [1, 5], [1, 1, 1, 1, 1]⟩
      ⟨Dtype.f64, [], []⟩ ⟨Dtype.f64, [], []⟩ ⟨Dtype.f64, [], []⟩ ⟨Dtype.f64, [], []⟩
      1 1 2).2.1 rfl (by decide) (by decide) (by decide),
   (twoLevel_entry_validation
      ⟨5, 1, 10, "l2", none, some ⟨Dtype.f64, [1, 3], []⟩, some 1, none⟩
      ⟨Dtype.f64, [], []⟩ ⟨Dtype.f64, [], []⟩
      ⟨Dtype.f64, [1, 2], []⟩ ⟨Dtype.f64, [1, 3], []⟩ ⟨Dtype.f64, [1, 3], []⟩
      ⟨Dtype.f64, [1, 3], []⟩ 1 1 2).2.2
      (by decide) (by decide) (by decide) (by decide) (by decide) (by decide)
      rfl (by decide) (by decide)⟩

/-! ## C9: pickle round trip -/

/-- C9 (code bug): `pickler` stores the flattened 2-D `_fit_X` and
`unpickler` replays `fit` on it; a grouped metric (here l21) rejects the
2-D array, so unpickling a fitted l21 tree raises ValueError instead of
reconstructing an equivalent fitted tree. -/
theorem pickle_roundtrip_l21_fails :
    (stL21Fitted.map fun s => s.fitX.isSome) = Except.ok true ∧
    (stL21Fitted.bind fun s => unpickleTuple (pickler s)) =
      Except.error (PyError.valueError "l21 metric should be used with 3dim array") :=
  ⟨rfl, rfl⟩

/-! ## C8: row pointer semantics and the sparse-matrix shape -/

theorem getD_map_range' {α : Type} (f : ℕ → α) (d : α) (n B : ℕ) (h : n < B) :
    ((List.range B).map f).getD n d = f n := by
  rw [List.getD_eq_getElem?_getD, List.getElem?_map, List.getElem?_range h]
  rfl

/-- C8 (code bug): the modelled result row pointer has length
`N_queries + 1` and consecutive entries delimit each query row's records
in query order; but after fitting 2 points and searching 1 query the
wrapper passes scipy the shape `(n_fitted, n_queries) = (2, 1)`, which is
inconsistent with that row-pointer semantics (a 2-row CSR needs a row
pointer of length 3, and the consistent shape is `(1, 2)`). -/
theorem csr_shape_transposed :
    (∀ Q records, (rowPtrOf Q records).length = Q + 1) ∧
    (∀ Q records, ∀ k < Q,
      (rowPtrOf Q records).getD (k + 1) 0 =
        (rowPtrOf Q records).getD k 0 + (records.filter fun rcd => rcd.1 = k).length) ∧
    (stCsrDemo.map getCsrShape) = Except.ok (some (2, 1)) ∧
    ¬ csrShapeConsistent (2, 1) (rowPtrOf 1 []) := by
  refine ⟨fun Q records => by simp [rowPtrOf], fun Q records k hk => ?_, rfl, ?_⟩
  · rw [rowPtrOf, getD_map_range' _ _ _ _ (by omega), getD_map_range' _ _ _ _ (by omega)]
    exact filter_row_lt_succ records k
  · simp [csrShapeConsistent, rowPtrOf]

/-! ## C3: mean-point construction and the coarse radius -/

/-- C3: for a 2-D array of `N` points of dimension `L = m * B`, the mean
points computed by `fit_and_radius_search` have shape `(N, m, 1)` and
entry `(n, i)` equal to the average of the `i`-th contiguous `B`-block of
row `n`; and a successful `radius_neighbors_full` dispatch passes the
coarse radius `radius * m' / d'` where `m'` is the mean-point dimension
and `d'` the full-resolution dimension. -/
theorem meanArr_and_coarse_radius
    (X : NDArr) (N L m B : ℕ) (st : KDTreeState) (Xm Df Xf dat : NDArr)
    (Q mdim Nt ddim : ℕ) (r : ℚ) (jobs : ℕ) :
    (X.shape = [N, L] → L = m * B → 0 < m → 0 < B →
      (meanArr X m).shape = [N, m, 1] ∧
      ∀ n < N, ∀ i < m,
        (meanArr X m).data.getD (n * m + i) 0 =
          (∑ j ∈ Finset.range B, X.data.getD (n * L + i * B + j) 0) / (B : ℚ)) ∧
    (Xm.shape = [Q, mdim] → Df.shape = [Nt, ddim] → Xf.shape = [Q, ddim] →
      mdim ≤ ddim → st.fitX = some dat → dat.shape.headD 0 = Nt →
      ddim % mdim = 0 →
      radius_neighbors_full st Xm Df Xf r jobs =
        Except.ok (st, ⟨Xm, Df, Xf, r * (mdim : ℚ) / (ddim : ℚ), r, jobs⟩)) := by
  constructor
  · intro hshape hL hm hB
    have hdiv : L / m = B := by
      rw [hL]
      exact Nat.mul_div_cancel_left B hm
    have hMA : meanArr X m = ⟨X.dtype, [N, m, 1], meanArrData N m B 1 X.data⟩ := by
      have e1 : X.shape.headD 0 = N := by rw [hshape]; rfl
      have e2 : X.shape.getD 1 0 = L := by rw [hshape]; rfl
      have e3 : shapeProd X.shape.tail = L := by rw [hshape]; simp [shapeProd]
      simp only [meanArr, e1, e2, e3, hdiv]
      rw [hL, Nat.div_self (Nat.mul_pos hm hB)]
    refine ⟨by rw [hMA], fun n hn i hi => ?_⟩
    rw [hMA]
    show (meanArrData N m B 1 X.data).getD (n * m + i) 0 = _
    have h1 : n * m + i < (n + 1) * m := by
      rw [Nat.succ_mul]
      exact Nat.add_lt_add_left hi _
    have h2 : (n + 1) * m ≤ N * m := Nat.mul_le_mul_right m hn
    have hb : n * m + i < N * m * 1 := by
      rw [Nat.mul_one]
      exact lt_of_lt_of_le h1 h2
    rw [meanArrData, getD_map_range _ _ _ hb]
    have ediv : (n * m + i) / (m * 1) = n := by
      rw [Nat.mul_one, Nat.add_comm, Nat.mul_comm, Nat.add_mul_div_left _ _ hm,
        Nat.div_eq_of_lt hi, Nat.zero_add]
    have emod : (n * m + i) % (m * 1) = i := by
      rw [Nat.mul_one, Nat.add_comm, Nat.mul_comm, Nat.add_mul_mod_self_left,
        Nat.mod_eq_of_lt hi]
    rw [list_range_map_sum]
    rw [ediv, emod]
    have eidx : ∀ j : ℕ, ((n * m + i / 1) * B + j) * 1 + (n * m + i) % 1 =
        n * L + i * B + j := by
      intro j
      rw [hL, Nat.div_one, Nat.mod_one]
      ring
    refine congrArg (fun s => s / (B : ℚ)) (Finset.sum_congr rfl fun j _ => ?_)
    rw [eidx j]
  · intro hXm hDf hXf hle hfit hdat hmod
    simp only [List.headD_eq_head?_getD] at hdat
    simp [radius_neighbors_full, getData, hXm, hDf, hXf, hle, hfit, hdat, hmod,
      Bind.bind, Except.bind]
    rfl

/-- C3 witness: a 1-point array of dimension 4 with 2 mean points, and a
concrete dispatch with mean dimension 2 and full dimension 4 whose coarse
radius is `1 * 2 / 4`. -/
theorem meanArr_and_coarse_radius_witness :
    ((meanArr ⟨Dtype.f64, [1, 4], [10, 20, 30, 40]⟩ 2).shape = [1, 2, 1] ∧
      ∀ n < 1, ∀ i < 2,
        (meanArr ⟨Dtype.f64, [1, 4], [10, 20, 30, 40]⟩ 2).data.getD (n * 2 + i) 0 =
          (∑ j ∈ Finset.range 2,
            (⟨Dtype.f64, [1, 4], [10, 20, 30, 40]⟩ : NDArr).data.getD (n * 4 + i * 2 + j) 0) /
            (2 : ℚ)) ∧
    radius_neighbors_full
        ⟨5, 1, 10, "l2", none, some ⟨Dtype.f64, [3, 4], []⟩, some 3, none⟩
        ⟨Dtype.f64, [2, 2], []⟩ ⟨Dtype.f64, [3, 4], []⟩ ⟨Dtype.f64, [2, 4], []⟩ 1 1 =
      Except.ok (⟨5, 1, 10, "l2", none, some ⟨Dtype.f64, [3, 4], []⟩, some 3, none⟩,
        ⟨⟨Dtype.f64, [2, 2], []⟩, ⟨Dtype.f64, [3, 4], []⟩, ⟨Dtype.f64, [2, 4], []⟩,
          1 * ((2 : ℕ) : ℚ) / ((4 : ℕ) : ℚ), 1, 1⟩) :=
  ⟨(meanArr_and_coarse_radius ⟨Dtype.f64, [1, 4], [10, 20, 30, 40]⟩ 1 4 2 2
      ⟨5, 1, 10, "l2", none, none, none, none⟩
      ⟨Dtype.f64, [], []⟩ ⟨Dtype.f64, [], []⟩ ⟨Dtype.f64, [], []⟩ ⟨Dtype.f64, [], []⟩
      0 0 0 0 1 1).1 rfl rfl (by decide) (by decide),
   (meanArr_and_coarse_radius ⟨Dtype.f64, [1, 4], [10, 20, 30, 40]⟩ 1 4 2 2
      ⟨5, 1, 10, "l2", none, some ⟨Dtype.f64, [3, 4], []⟩, some 3, none⟩
      ⟨Dtype.f64, [2, 2], []⟩ ⟨Dtype.f64, [3, 4], []⟩ ⟨Dtype.f64, [2, 4], []⟩
      ⟨Dtype.f64, [3, 4], []⟩ 2 2 3 4 1 1).2
      rfl rfl rfl (by decide) rfl rfl (by decide)⟩

/-! ## C1: radius-search exactness -/

theorem rsearch_eq_filterMap (pts : List Pt) (dist : Pt → Pt → ℚ)
    (lb : Pt → List ℚ → List ℚ → ℚ) (inB : List ℚ → List ℚ → Pt → Bool)
    (q : Pt) (rad : ℚ) (t : KTree)
    (hsound : LbSound dist lb inB) (hwf : TreeWF pts inB t = true) :
    rsearch pts dist lb q rad t = (treeIdxs t).filterMap fun i =>
      let d := dist q (pts.getD i [])
      if d ≤ rad then some (i, d) else none := by
  induction t with
  | leaf s len => rfl
  | node dim val lo hi l r ihl ihr =>
      rw [TreeWF] at hwf
      simp only [Bool.and_eq_true, List.all_eq_true] at hwf
      obtain ⟨⟨hall, h2⟩, h3⟩ := hwf
      rw [rsearch, treeIdxs]
      by_cases hp : lb q lo hi ≤ rad
      · rw [if_pos hp, List.filterMap_append, ihl h2, ihr h3]
      · rw [if_neg hp]
        symm
        rw [List.filterMap_eq_nil_iff]
        intro i hmem
        have hlb : lb q lo hi ≤ dist q (pts.getD i []) :=
          hsound q lo hi _ (hall i hmem)
        have hd : ¬ dist q (pts.getD i []) ≤ rad := fun hc => hp (le_trans hlb hc)
        show (if dist q (pts.getD i []) ≤ rad then
            some (i, dist q (pts.getD i [])) else none) = none
        rw [if_neg hd]

/-- C1: for every point set, every sound box lower bound, every
well-formed tree covering all point indices, and every query and radius,
the radius search returns exactly the records of points whose true metric
distance to the query is at most the radius (boundary included), each
paired with its exact distance. -/
theorem radiusSearch_exact (pts : List Pt) (dist : Pt → Pt → ℚ)
    (lb : Pt → List ℚ → List ℚ → ℚ) (inB : List ℚ → List ℚ → Pt → Bool)
    (q : Pt) (rad : ℚ) (t : KTree)
    (hsound : LbSound dist lb inB) (hwf : TreeWF pts inB t = true)
    (hcover : (treeIdxs t).Perm (List.range pts.length)) :
    (rsearch pts dist lb q rad t).Perm
      ((List.range pts.length).filterMap fun i =>
        let d := dist q (pts.getD i [])
        if d ≤ rad then some (i, d) else none) := by
  rw [rsearch_eq_filterMap pts dist lb inB q rad t hsound hwf]
  exact hcover.filterMap _

theorem l1lb_sound (D : ℕ) : LbSound (l1D D) (l1lbD D) (inBoxD D) := by
  intro q lo hi p hp
  rw [inBoxD, List.all_eq_true] at hp
  rw [l1lbD, l1D]
  refine Finset.sum_le_sum fun j hj => ?_
  have hj2 : j < D := Finset.mem_range.mp hj
  have hmem := hp j (List.mem_range.mpr hj2)
  rw [decide_eq_true_eq] at hmem
  obtain ⟨hlo, hhi⟩ := hmem
  rw [clip]
  refine max_le (abs_nonneg _) (max_le ?_ ?_)
  · calc lo.getD j 0 - q.getD j 0 ≤ p.getD j 0 - q.getD j 0 := by linarith
    _ ≤ |p.getD j 0 - q.getD j 0| := le_abs_self _
    _ = |q.getD j 0 - p.getD j 0| := abs_sub_comm _ _
  · calc q.getD j 0 - hi.getD j 0 ≤ q.getD j 0 - p.getD j 0 := by linarith
    _ ≤ |q.getD j 0 - p.getD j 0| := le_abs_self _

theorem demoTree_wf : TreeWF demoPts (inBoxD 2) demoTree = true := by
  simp only [TreeWF, demoTree, demoPts, treeIdxs, inBoxD,
    show List.range 2 = [0, 1] from rfl, show List.range' 0 2 = [0, 1] from rfl,
    show List.range' 2 2 = [2, 3] from rfl]
  norm_num [List.all_cons]

theorem demoTree_cover : (treeIdxs demoTree).Perm (List.range demoPts.length) := by
  rw [show treeIdxs demoTree = List.range demoPts.length from rfl]

/-- C1 witness: the spec concrete scenario, with the l1 metric: query
(0,0) with radius 3/2 over the points (0,0), (1,0), (0,1), (5,5). -/
theorem radiusSearch_exact_witness :
    TreeWF demoPts (inBoxD 2) demoTree = true ∧
    (treeIdxs demoTree).Perm (List.range demoPts.length) ∧
    (rsearch demoPts (l1D 2) (l1lbD 2) [0, 0] (3 / 2) demoTree).Perm
      ((List.range demoPts.length).filterMap fun i =>
        let d := l1D 2 [0, 0] (demoPts.getD i [])
        if d ≤ 3 / 2 then some (i, d) else none) :=
  ⟨demoTree_wf, demoTree_cover,
    radiusSearch_exact demoPts (l1D 2) (l1lbD 2) (inBoxD 2) [0, 0] (3 / 2) demoTree
      (l1lb_sound 2) demoTree_wf demoTree_cover⟩

/-! ## C6: thread-count equivalence of the batched search -/

theorem list_sum_range_map_nat (f : ℕ → ℕ) (T : ℕ) :
    ((List.range T).map f).sum = ∑ i ∈ Finset.range T, f i := rfl

theorem chunkSizes_sum (N T : ℕ) (hT : 0 < T) : (chunkSizes N T).sum = N := by
  rw [chunkSizes, list_sum_range_map_nat, Finset.sum_add_distrib,
    Finset.sum_const, Finset.card_range, smul_eq_mul]
  have hmod : N % T < T := Nat.mod_lt _ hT
  have hfil : (Finset.range T).filter (fun i => i < N % T) = Finset.range (N % T) := by
    ext x
    simp only [Finset.mem_filter, Finset.mem_range]
    omega
  rw [← Finset.card_filter, hfil, Finset.card_range]
  exact Nat.div_add_mod N T

theorem splitChunks_flatten {α : Type} (ns : List ℕ) (l : List α)
    (h : ns.sum = l.length) : (splitChunks l ns).flatten = l := by
  induction ns generalizing l with
  | nil =>
      simp only [List.sum_nil] at h
      rw [splitChunks]
      simp [(List.length_eq_zero.mp h.symm)]
  | cons n ns ih =>
      rw [splitChunks, List.flatten_cons]
      rw [ih (l.drop n) (by simp only [List.sum_cons] at h; simp [List.length_drop]; omega)]
      exact List.take_append_drop n l

theorem flatten_map_flatMap {α β : Type} (g : α → List β) (ll : List (List α)) :
    (ll.map fun c => c.flatMap g).flatten = ll.flatten.flatMap g := by
  induction ll with
  | nil => rfl
  | cons c ll ih => simp [ih]

/-- C6: for every fitted tree, query batch and radius, the batched radius
search with any thread count T at least 1 returns exactly the
single-thread result: the same list, hence the same set, of
(query_row, point_col, distance) triples. -/
theorem batch_thread_count_equiv (pts : List Pt) (dist : Pt → Pt → ℚ)
    (lb : Pt → List ℚ → List ℚ → ℚ) (rad : ℚ) (t : KTree)
    (queries : List Pt) (T : ℕ) (hT : 1 ≤ T) :
    batchSearch (rowEngine pts dist lb rad t) queries T =
      batchSearch (rowEngine pts dist lb rad t) queries 1 := by
  have key : ∀ S : ℕ, 1 ≤ S →
      batchSearch (rowEngine pts dist lb rad t) queries S =
        queries.enum.flatMap (rowEngine pts dist lb rad t) := by
    intro S hS
    rw [batchSearch, flatten_map_flatMap, splitChunks_flatten]
    rw [chunkSizes_sum _ _ hS]
    simp
  rw [key T hT, key 1 (le_refl 1)]

/-- C6 witness: two queries over the demo tree, two threads vs one. -/
theorem batch_thread_count_equiv_witness :
    1 ≤ 2 ∧
    batchSearch (rowEngine demoPts (l1D 2) (l1lbD 2) (3 / 2) demoTree)
        [[0, 0], [5, 5]] 2 =
      batchSearch (rowEngine demoPts (l1D 2) (l1lbD 2) (3 / 2) demoTree)
        [[0, 0], [5, 5]] 1 :=
  ⟨by decide, batch_thread_count_equiv demoPts (l1D 2) (l1lbD 2) (3 / 2) demoTree
      [[0, 0], [5, 5]] 2 (by decide)⟩

/-! ## C7: topology-only persistence round trip -/

theorem loadTreeAux_roundtrip (t : KTree) : ∀ (rest : List NodeRec) (fuel : ℕ),
    (saveTree t ++ rest).length ≤ fuel →
    loadTreeAux fuel (saveTree t ++ rest) = some (t, rest) := by
  induction t with
  | leaf s len =>
      intro rest fuel h
      cases fuel with
      | zero => simp [saveTree] at h
      | succ f => rfl
  | node d v lo hi l r ihl ihr =>
      intro rest fuel h
      cases fuel with
      | zero => simp [saveTree] at h
      | succ f =>
          simp only [saveTree, List.cons_append, List.length_cons, List.length_append,
            Nat.succ_le_succ_iff] at h
          have hl : (saveTree l ++ (saveTree r ++ rest)).length ≤ f := by
            simp [List.length_append]
            omega
          have hr : (saveTree r ++ rest).length ≤ f := by
            simp [List.length_append]
            omega
          have e : saveTree (KTree.node d v lo hi l r) ++ rest =
              NodeRec.nodeR d v lo hi :: (saveTree l ++ (saveTree r ++ rest)) := by
            simp [saveTree]
          rw [e, loadTreeAux, ihl _ f hl]
          simp only [Option.bind_eq_bind, Option.some_bind]
          rw [ihr _ f hr]
          rfl

/-- C7: saving an index and loading the record file reconstructs the
identical tree (the records hold topology, split data and boxes, never
point coordinates), so every radius search over the reloaded tree with
the identical point data returns exactly the pre-save results. -/
theorem save_load_roundtrip (t : KTree) (pts : List Pt) (dist : Pt → Pt → ℚ)
    (lb : Pt → List ℚ → List ℚ → ℚ) (q : Pt) (rad : ℚ) :
    loadTree (saveTree t) = some t ∧
    rsearch pts dist lb q rad ((loadTree (saveTree t)).getD (KTree.leaf 0 0)) =
      rsearch pts dist lb q rad t := by
  have haux := loadTreeAux_roundtrip t [] (saveTree t).length (by simp)
  rw [List.append_nil] at haux
  have h : loadTree (saveTree t) = some t := by
    rw [loadTree, haux]
  exact ⟨h, by rw [h]; rfl⟩

/-! ## C2: two-level search — metric bounds -/

theorem sum_range_mul_eq {M : Type} [AddCommMonoid M] (a b : ℕ) (f : ℕ → M) :
    ∑ t ∈ Finset.range (a * b), f t =
      ∑ i ∈ Finset.range a, ∑ j ∈ Finset.range b, f (i * b + j) := by
  induction a with
  | zero => simp
  | succ n ih =>
      rw [Nat.succ_mul, Finset.sum_range_add, ih, Finset.sum_range_succ]

theorem qget_meanPtW (m B W : ℕ) (x : List ℚ) (t : ℕ) (ht : t < m * W) :
    qget (meanPtW m B W x) t =
      (∑ j ∈ Finset.range B, qget x ((t / W * B + j) * W + t % W)) / (B : ℝ) := by
  rw [qget, meanPtW, meanArrData]
  rw [show (1 : ℕ) * m * W = m * W by ring]
  rw [getD_map_range _ _ _ ht]
  rw [Nat.div_eq_of_lt ht, Nat.mod_eq_of_lt ht, Nat.zero_mul, Nat.zero_add]
  rw [list_range_map_sum]
  push_cast
  rw [Finset.sum_div]
  rw [Finset.sum_div]
  refine Finset.sum_congr rfl fun j _ => ?_
  rw [qget]

theorem meanPtW_diff (m B W : ℕ) (x y : List ℚ) (t : ℕ) (ht : t < m * W) :
    qget (meanPtW m B W x) t - qget (meanPtW m B W y) t =
      (∑ j ∈ Finset.range B, (qget x ((t / W * B + j) * W + t % W) -
        qget y ((t / W * B + j) * W + t % W))) / (B : ℝ) := by
  rw [qget_meanPtW _ _ _ _ _ ht, qget_meanPtW _ _ _ _ _ ht, div_sub_div_same,
    Finset.sum_sub_distrib]

theorem sum_mean_reindex (m B W : ℕ) (f : ℕ → ℝ) :
    ∑ t ∈ Finset.range (m * W), ∑ j ∈ Finset.range B,
        f ((t / W * B + j) * W + t % W) =
      ∑ u ∈ Finset.range (m * B * W), f u := by
  rw [sum_range_mul_eq m W]
  rw [show m * B * W = m * (B * W) by ring, sum_range_mul_eq m (B * W)]
  refine Finset.sum_congr rfl fun i _ => ?_
  rw [sum_range_mul_eq B W, Finset.sum_comm]
  refine Finset.sum_congr rfl fun j _ => Finset.sum_congr rfl fun k hk => ?_
  have hk2 : k < W := Finset.mem_range.mp hk
  have hW : 0 < W := lt_of_le_of_lt (Nat.zero_le k) hk2
  have e1 : (i * W + k) / W = i := by
    rw [Nat.add_comm, Nat.mul_comm, Nat.add_mul_div_left _ _ hW,
      Nat.div_eq_of_lt hk2, Nat.zero_add]
  have e2 : (i * W + k) % W = k := by
    rw [Nat.add_comm, Nat.mul_comm, Nat.add_mul_mod_self_left, Nat.mod_eq_of_lt hk2]
  rw [e1, e2]
  congr 1
  ring

theorem l1_mean_bound (m B W : ℕ) (hB : 0 < B) (x y : List ℚ) :
    l1R (m * W) (meanPtW m B W x) (meanPtW m B W y) ≤
      (1 / (B : ℝ)) * l1R (m * B * W) x y := by
  have hBR : (0 : ℝ) < B := by exact_mod_cast hB
  rw [l1R, l1R]
  calc ∑ t ∈ Finset.range (m * W),
        |qget (meanPtW m B W x) t - qget (meanPtW m B W y) t|
      = ∑ t ∈ Finset.range (m * W),
          |∑ j ∈ Finset.range B, (qget x ((t / W * B + j) * W + t % W) -
            qget y ((t / W * B + j) * W + t % W))| / (B : ℝ) := by
        refine Finset.sum_congr rfl fun t ht => ?_
        rw [meanPtW_diff m B W x y t (Finset.mem_range.mp ht), abs_div,
          abs_of_pos hBR]
    _ ≤ ∑ t ∈ Finset.range (m * W),
          (∑ j ∈ Finset.range B, |qget x ((t / W * B + j) * W + t % W) -
            qget y ((t / W * B + j) * W + t % W)|) / (B : ℝ) := by
        refine Finset.sum_le_sum fun t _ => ?_
        exact (div_le_div_right hBR).mpr (Finset.abs_sum_le_sum_abs _ _)
    _ = (∑ t ∈ Finset.range (m * W), ∑ j ∈ Finset.range B,
          |qget x ((t / W * B + j) * W + t % W) -
            qget y ((t / W * B + j) * W + t % W)|) / (B : ℝ) := by
        rw [Finset.sum_div]
    _ = (∑ u ∈ Finset.range (m * B * W), |qget x u - qget y u|) / (B : ℝ) := by
        rw [sum_mean_reindex m B W fun u => |qget x u - qget y u|]
    _ = (1 / (B : ℝ)) * ∑ u ∈ Finset.range (m * B * W), |qget x u - qget y u| := by
        rw [one_div, inv_mul_eq_div]

theorem l11R_eq_l1R (L W : ℕ) (x y : List ℚ) : l11R L W x y = l1R (L * W) x y := by
  rw [l11R, l1R, sum_range_mul_eq L W]

theorem l11_mean_bound (m B W : ℕ) (hB : 0 < B) (x y : List ℚ) :
    l11R m W (meanPtW m B W x) (meanPtW m B W y) ≤
      (1 / (B : ℝ)) * l11R (m * B) W x y := by
  rw [l11R_eq_l1R, l11R_eq_l1R]
  exact l1_mean_bound m B W hB x y

theorem sqrt_sum_sq_add_le (W : ℕ) (a b : ℕ → ℝ) :
    Real.sqrt (∑ k ∈ Finset.range W, (a k + b k) ^ 2) ≤
      Real.sqrt (∑ k ∈ Finset.range W, a k ^ 2) +
      Real.sqrt (∑ k ∈ Finset.range W, b k ^ 2) := by
  have hA : (0 : ℝ) ≤ ∑ k ∈ Finset.range W, a k ^ 2 :=
    Finset.sum_nonneg fun k _ => sq_nonneg _
  have hB : (0 : ℝ) ≤ ∑ k ∈ Finset.range W, b k ^ 2 :=
    Finset.sum_nonneg fun k _ => sq_nonneg _
  have hcs : ∑ k ∈ Finset.range W, a k * b k ≤
      Real.sqrt (∑ k ∈ Finset.range W, a k ^ 2) *
        Real.sqrt (∑ k ∈ Finset.range W, b k ^ 2) :=
    Real.sum_mul_le_sqrt_mul_sqrt _ _ _
  have hexp : ∑ k ∈ Finset.range W, (a k + b k) ^ 2 ≤
      (Real.sqrt (∑ k ∈ Finset.range W, a k ^ 2) +
        Real.sqrt (∑ k ∈ Finset.range W, b k ^ 2)) ^ 2 := by
    have e : ∑ k ∈ Finset.range W, (a k + b k) ^ 2 =
        (∑ k ∈ Finset.range W, a k ^ 2) +
          2 * (∑ k ∈ Finset.range W, a k * b k) +
          (∑ k ∈ Finset.range W, b k ^ 2) := by
      rw [Finset.sum_congr rfl fun k _ =>
        show (a k + b k) ^ 2 = a k ^ 2 + 2 * (a k * b k) + b k ^ 2 by ring]
      rw [Finset.sum_add_distrib, Finset.sum_add_distrib, ← Finset.mul_sum]
    rw [e, add_sq, Real.sq_sqrt hA, Real.sq_sqrt hB]
    linarith
  calc Real.sqrt (∑ k ∈ Finset.range W, (a k + b k) ^ 2)
      ≤ Real.sqrt ((Real.sqrt (∑ k ∈ Finset.range W, a k ^ 2) +
          Real.sqrt (∑ k ∈ Finset.range W, b k ^ 2)) ^ 2) := Real.sqrt_le_sqrt hexp
    _ = _ := Real.sqrt_sq (by positivity)

theorem sqrt_sum_sq_sum_le (W B : ℕ) (v : ℕ → ℕ → ℝ) :
    Real.sqrt (∑ k ∈ Finset.range W, (∑ j ∈ Finset.range B, v j k) ^ 2) ≤
      ∑ j ∈ Finset.range B, Real.sqrt (∑ k ∈ Finset.range W, v j k ^ 2) := by
  induction B with
  | zero => simp
  | succ n ih =>
      calc Real.sqrt (∑ k ∈ Finset.range W, (∑ j ∈ Finset.range (n + 1), v j k) ^ 2)
          = Real.sqrt (∑ k ∈ Finset.range W,
              ((∑ j ∈ Finset.range n, v j k) + v n k) ^ 2) := by
            congr 1
            exact Finset.sum_congr rfl fun k _ => by rw [Finset.sum_range_succ]
        _ ≤ Real.sqrt (∑ k ∈ Finset.range W, (∑ j ∈ Finset.range n, v j k) ^ 2) +
            Real.sqrt (∑ k ∈ Finset.range W, v n k ^ 2) := sqrt_sum_sq_add_le W _ _
        _ ≤ (∑ j ∈ Finset.range n, Real.sqrt (∑ k ∈ Finset.range W, v j k ^ 2)) +
            Real.sqrt (∑ k ∈ Finset.range W, v n k ^ 2) := add_le_add_right ih _
        _ = ∑ j ∈ Finset.range (n + 1),
              Real.sqrt (∑ k ∈ Finset.range W, v j k ^ 2) :=
            (Finset.sum_range_succ _ n).symm

theorem l21_mean_bound (m B W : ℕ) (hB : 0 < B) (x y : List ℚ) :
    l21R m W (meanPtW m B W x) (meanPtW m B W y) ≤
      (1 / (B : ℝ)) * l21R (m * B) W x y := by
  have hBR : (0 : ℝ) < B := by exact_mod_cast hB
  rw [l21R, l21R]
  have key : ∀ i ∈ Finset.range m,
      Real.sqrt (∑ k ∈ Finset.range W,
        (qget (meanPtW m B W x) (i * W + k) - qget (meanPtW m B W y) (i * W + k)) ^ 2) ≤
      (1 / (B : ℝ)) * ∑ j ∈ Finset.range B,
        Real.sqrt (∑ k ∈ Finset.range W,
          (qget x ((i * B + j) * W + k) - qget y ((i * B + j) * W + k)) ^ 2) := by
    intro i hi
    have hi2 : i < m := Finset.mem_range.mp hi
    have e : ∀ k ∈ Finset.range W,
        (qget (meanPtW m B W x) (i * W + k) - qget (meanPtW m B W y) (i * W + k)) ^ 2 =
        ((∑ j ∈ Finset.range B, (qget x ((i * B + j) * W + k) -
          qget y ((i * B + j) * W + k))) / (B : ℝ)) ^ 2 := by
      intro k hk
      have hk2 : k < W := Finset.mem_range.mp hk
      have hW : 0 < W := lt_of_le_of_lt (Nat.zero_le k) hk2
      have ht : i * W + k < m * W := by
        calc i * W + k < i * W + W := Nat.add_lt_add_left hk2 _
          _ = (i + 1) * W := (Nat.succ_mul i W).symm
          _ ≤ m * W := Nat.mul_le_mul_right W hi2
      rw [meanPtW_diff m B W x y _ ht]
      have e1 : (i * W + k) / W = i := by
        rw [Nat.add_comm, Nat.mul_comm, Nat.add_mul_div_left _ _ hW,
          Nat.div_eq_of_lt hk2, Nat.zero_add]
      have e2 : (i * W + k) % W = k := by
        rw [Nat.add_comm, Nat.mul_comm, Nat.add_mul_mod_self_left,
          Nat.mod_eq_of_lt hk2]
      rw [e1, e2]
    rw [Finset.sum_congr rfl e]
    have e3 : ∑ k ∈ Finset.range W, ((∑ j ∈ Finset.range B,
        (qget x ((i * B + j) * W + k) - qget y ((i * B + j) * W + k))) / (B : ℝ)) ^ 2 =
        (1 / (B : ℝ)) ^ 2 * ∑ k ∈ Finset.range W, (∑ j ∈ Finset.range B,
          (qget x ((i * B + j) * W + k) - qget y ((i * B + j) * W + k))) ^ 2 := by
      rw [Finset.mul_sum]
      exact Finset.sum_congr rfl fun k _ => by ring
    rw [e3, Real.sqrt_mul (sq_nonneg _), Real.sqrt_sq (by positivity)]
    exact mul_le_mul_of_nonneg_left (sqrt_sum_sq_sum_le W B _) (by positivity)
  calc ∑ i ∈ Finset.range m, Real.sqrt (∑ k ∈ Finset.range W,
        (qget (meanPtW m B W x) (i * W + k) - qget (meanPtW m B W y) (i * W + k)) ^ 2)
      ≤ ∑ i ∈ Finset.range m, (1 / (B : ℝ)) * ∑ j ∈ Finset.range B,
          Real.sqrt (∑ k ∈ Finset.range W,
            (qget x ((i * B + j) * W + k) - qget y ((i * B + j) * W + k)) ^ 2) :=
        Finset.sum_le_sum key
    _ = (1 / (B : ℝ)) * ∑ i ∈ Finset.range m, ∑ j ∈ Finset.range B,
          Real.sqrt (∑ k ∈ Finset.range W,
            (qget x ((i * B + j) * W + k) - qget y ((i * B + j) * W + k)) ^ 2) := by
        rw [Finset.mul_sum]
    _ = (1 / (B : ℝ)) * ∑ u ∈ Finset.range (m * B),
          Real.sqrt (∑ k ∈ Finset.range W,
            (qget x (u * W + k) - qget y (u * W + k)) ^ 2) := by
        rw [sum_range_mul_eq m B]

theorem lpqDist_nonneg (kind : MKind) (L W : ℕ) (x y : List ℚ) :
    0 ≤ lpqDist kind L W x y := by
  cases kind <;> simp only [lpqDist, l1R, l11R, l2R, l21R]
  · exact Finset.sum_nonneg fun j _ => abs_nonneg _
  · exact Real.sqrt_nonneg _
  · exact Finset.sum_nonneg fun i _ => Finset.sum_nonneg fun k _ => abs_nonneg _
  · exact Real.sqrt_nonneg _
  · exact Finset.sum_nonneg fun i _ => Real.sqrt_nonneg _

theorem lpqDist_zero_dim (kind : MKind) (m W : ℕ) (x y : List ℚ)
    (hkind : kind = MKind.l1 ∨ kind = MKind.l11 ∨ kind = MKind.l21)
    (h : m * W = 0) : lpqDist kind m W x y = 0 := by
  rcases Nat.mul_eq_zero.mp h with h0 | h0 <;>
    rcases hkind with hk | hk | hk <;> subst hk <;>
      simp [lpqDist, l1R, l11R, l21R, h, h0]

/-- C2 (amended): for the metrics l1, l11 and l21 the two-level search
output equals the brute-force within-radius pair set — the coarse
mean-point pass at radius `radius * m / d` admits no false negatives and
the refinement pass removes every false positive.  The l2 metric is
excluded: its coarse pass can miss true neighbors (see the
counterexample). -/
theorem twoLevel_exact (kind : MKind) (m B W : ℕ) (tf qf : List (List ℚ)) (r : ℚ)
    (hkind : kind = MKind.l1 ∨ kind = MKind.l11 ∨ kind = MKind.l21) (hB : 0 < B) :
    twoLevelPairs kind m B W tf qf r = brutePairs kind (m * B) W tf qf r := by
  ext pr
  simp only [twoLevelPairs, brutePairs, Set.mem_setOf_eq]
  constructor
  · rintro ⟨h1, h2, _, h4⟩
    exact ⟨h1, h2, h4⟩
  · rintro ⟨h1, h2, h3⟩
    refine ⟨h1, h2, ?_, h3⟩
    have hr0 : (0 : ℝ) ≤ (r : ℝ) :=
      le_trans (lpqDist_nonneg kind (m * B) W _ _) h3
    by_cases hmw : m * W = 0
    · rw [lpqDist_zero_dim kind m W _ _ hkind hmw]
      have hc : ((r * (m * W : ℕ) / ((m * B * W : ℕ) : ℚ) : ℚ) : ℝ) = 0 := by
        rw [hmw]
        push_cast
        simp
      rw [hc]
    · have hBR : (0 : ℝ) < B := by exact_mod_cast hB
      obtain ⟨hm0, hW0⟩ : m ≠ 0 ∧ W ≠ 0 := by
        constructor <;> intro h0 <;> exact hmw (by rw [h0]; ring)
      have hbound : lpqDist kind m W (meanPtW m B W (qf.getD pr.1 []))
          (meanPtW m B W (tf.getD pr.2 [])) ≤
          (1 / (B : ℝ)) * lpqDist kind (m * B) W (qf.getD pr.1 []) (tf.getD pr.2 []) := by
        rcases hkind with hk | hk | hk <;> subst hk
        · exact l1_mean_bound m B W hB _ _
        · exact l11_mean_bound m B W hB _ _
        · exact l21_mean_bound m B W hB _ _
      have hmR : ((m : ℝ)) ≠ 0 := Nat.cast_ne_zero.mpr hm0
      have hWR : ((W : ℝ)) ≠ 0 := Nat.cast_ne_zero.mpr hW0
      have hBne : ((B : ℝ)) ≠ 0 := ne_of_gt hBR
      have hrad : ((r * (m * W : ℕ) / ((m * B * W : ℕ) : ℚ) : ℚ) : ℝ) =
          (1 / (B : ℝ)) * (r : ℝ) := by
        push_cast
        field_simp
        ring
      rw [hrad]
      calc lpqDist kind m W (meanPtW m B W (qf.getD pr.1 []))
            (meanPtW m B W (tf.getD pr.2 []))
          ≤ (1 / (B : ℝ)) * lpqDist kind (m * B) W (qf.getD pr.1 []) (tf.getD pr.2 []) :=
            hbound
        _ ≤ (1 / (B : ℝ)) * (r : ℝ) :=
            mul_le_mul_of_nonneg_left h3 (by positivity)

/-- C2 witness: the l1 metric on a one-point, one-query grouped set. -/
theorem twoLevel_exact_witness :
    (MKind.l1 = MKind.l1 ∨ MKind.l1 = MKind.l11 ∨ MKind.l1 = MKind.l21) ∧
    (0 : ℕ) < 2 ∧
    twoLevelPairs MKind.l1 1 2 1 [[0, 0]] [[1, 1]] 3 =
      brutePairs MKind.l1 (1 * 2) 1 [[0, 0]] [[1, 1]] 3 :=
  ⟨Or.inl rfl, by decide,
    twoLevel_exact MKind.l1 1 2 1 [[0, 0]] [[1, 1]] 3 (Or.inl rfl) (by decide)⟩

/-- C2 counterexample: with the l2 metric (true Euclidean distance, not
squared) the coarse radius `radius * m / d` admits a false negative.  The
tree point (0,0,0,0) lies at full l2 distance exactly 2 from the query
(1,1,1,1); with one mean point the mean distance is 1, above the coarse
radius 2 * 1 / 4 = 1/2, so the two-level output drops the pair and
differs from the brute-force result. -/
theorem twoLevel_l2_counterexample :
    (0, 0) ∈ brutePairs MKind.l2 4 1 [[0, 0, 0, 0]] [[1, 1, 1, 1]] 2 ∧
    (0, 0) ∉ twoLevelPairs MKind.l2 1 4 1 [[0, 0, 0, 0]] [[1, 1, 1, 1]] 2 ∧
    twoLevelPairs MKind.l2 1 4 1 [[0, 0, 0, 0]] [[1, 1, 1, 1]] 2 ≠
      brutePairs MKind.l2 4 1 [[0, 0, 0, 0]] [[1, 1, 1, 1]] 2 := by
  have hfull : lpqDist MKind.l2 4 1 [1, 1, 1, 1] [0, 0, 0, 0] = 2 := by
    show l2R (4 * 1) [1, 1, 1, 1] [0, 0, 0, 0] = 2
    rw [l2R]
    have h4 : (∑ j ∈ Finset.range (4 * 1),
        (qget [1, 1, 1, 1] j - qget [0, 0, 0, 0] j) ^ 2) = 4 := by
      norm_num [Finset.sum_range_succ, qget]
    rw [h4, show (4 : ℝ) = 2 ^ 2 by norm_num,
      Real.sqrt_sq (by norm_num : (0 : ℝ) ≤ 2)]
  have hmean1 : meanPtW 1 4 1 [1, 1, 1, 1] = [1] := by
    norm_num [meanPtW, meanArrData, show List.range 1 = [0] from rfl,
      show List.range 4 = [0, 1, 2, 3] from rfl]
  have hmean0 : meanPtW 1 4 1 [0, 0, 0, 0] = [0] := by
    norm_num [meanPtW, meanArrData, show List.range 1 = [0] from rfl,
      show List.range 4 = [0, 1, 2, 3] from rfl]
  have hmdist : lpqDist MKind.l2 1 1 (meanPtW 1 4 1 [1, 1, 1, 1])
      (meanPtW 1 4 1 [0, 0, 0, 0]) = 1 := by
    rw [hmean1, hmean0]
    show l2R (1 * 1) [1] [0] = 1
    rw [l2R]
    have h1 : (∑ j ∈ Finset.range (1 * 1), (qget [1] j - qget [0] j) ^ 2) = 1 := by
      norm_num [Finset.sum_range_succ, qget]
    rw [h1, Real.sqrt_one]
  have hbrute : (0, 0) ∈ brutePairs MKind.l2 4 1 [[0, 0, 0, 0]] [[1, 1, 1, 1]] 2 := by
    simp only [brutePairs, Set.mem_setOf_eq]
    refine ⟨by norm_num, by norm_num, ?_⟩
    simp only [List.getD_cons_zero]
    rw [hfull]
    norm_num
  have hnot : (0, 0) ∉ twoLevelPairs MKind.l2 1 4 1 [[0, 0, 0, 0]] [[1, 1, 1, 1]] 2 := by
    intro hmem
    simp only [twoLevelPairs, Set.mem_setOf_eq] at hmem
    obtain ⟨_, _, hcoarse, _⟩ := hmem
    simp only [List.getD_cons_zero] at hcoarse
    rw [hmdist] at hcoarse
    have : ((2 * ((1 * 1 : ℕ) : ℚ) / ((1 * 4 * 1 : ℕ) : ℚ) : ℚ) : ℝ) = 1 / 2 := by
      norm_num
    rw [this] at hcoarse
    linarith
  refine ⟨hbrute, hnot, fun heq => hnot ?_⟩
  rw [heq]
  exact hbrute

/-- C8 witness: the row-pointer facts at a concrete record list. -/
theorem csr_shape_transposed_witness :
    (rowPtrOf 3 [(0, 5, 1), (1, 2, 1)]).length = 3 + 1 ∧
    (1 : ℕ) < 3 ∧
    (rowPtrOf 3 [(0, 5, 1), (1, 2, 1)]).getD (1 + 1) 0 =
      (rowPtrOf 3 [(0, 5, 1), (1, 2, 1)]).getD 1 0 +
        (([(0, 5, 1), (1, 2, 1)] : List (ℕ × ℕ × ℚ)).filter fun rcd => rcd.1 = 1).length :=
  ⟨csr_shape_transposed.1 3 [(0, 5, 1), (1, 2, 1)], by decide,
    csr_shape_transposed.2.1 3 [(0, 5, 1), (1, 2, 1)] 1 (by decide)⟩

end Lpqtree
